import Mathlib

/-!
Verification of the astacus coordinator engine against its design document.

The definitions below are a shallow embedding of the Python sources:
  * `astacus/coordinator/cluster.py` (lock-call aggregation, result polling),
  * `astacus/coordinator/plugins/base.py` (work distribution, restore placement,
    backup naming),
  * `astacus/coordinator/api.py` (the cached `/list` handler).
Python dictionaries are embedded as insertion-ordered association lists (Python
dicts preserve insertion order), `sorted` as a stable insertion sort, `set`
membership as list membership, exceptions as `Except`, and machine strings as
`String` / `List Char`.
-/

/-! ## Generic list helpers (stable sort, point update, minimum) -/

/-- Insert `x` into `l`, keeping every `y` with `le y x` before `x`.
Folding this over a list yields a stable sort, mirroring Python's `sorted`. -/
def insertSortedBy (le : α → α → Bool) (x : α) : List α → List α
  | [] => [x]
  | y :: ys => if le y x then y :: insertSortedBy le x ys else x :: y :: ys

/-- Stable sort by the boolean comparison `le` (a total preorder), mirroring
Python's stable `sorted`. -/
def sortBy (le : α → α → Bool) (l : List α) : List α :=
  l.foldl (fun acc x => insertSortedBy le x acc) []

/-- Apply `f` to the `j`-th element of a list (no-op when out of range);
mirrors a Python in-place update `l[j] = f(l[j])`. -/
def modifyNth (f : α → α) : Nat → List α → List α
  | _, [] => []
  | 0, x :: xs => f x :: xs
  | n + 1, x :: xs => x :: modifyNth f n xs

/-- Python's `min` over a non-empty list of pairs: lexicographic minimum,
first occurrence wins. Junk value `(0, 0)` on the empty list (Python raises). -/
def listMinPair : List (Nat × Nat) → Nat × Nat
  | [] => (0, 0)
  | x :: xs =>
    xs.foldl (fun m p => if p.1 < m.1 ∨ (p.1 = m.1 ∧ p.2 < m.2) then p else m) x

/-! ## Data model

`astacus/common/ipc.py` and the coordinator config are not part of the sources
under verification; the record shapes below are modelled from the spec's data
model section (`SnapshotHash {hexdigest, size}`, node descriptor `{url, az}`,
snapshot manifests with per-node hash lists and availability zone). -/

/-- A content-addressed blob: hex digest plus size (spec: "Snapshot hash set
(per node): set of SnapshotHash {hexdigest, size}"). -/
structure SnapshotHash where
  hexdigest : String
  size : Nat
deriving DecidableEq

/-- The parts of `ipc.SnapshotResult` that the coordinator logic reads:
the optional per-node hash list, the availability zone and the hostname. -/
structure SnapshotResult where
  hashes : Option (List SnapshotHash) := none
  az : String := ""
  hostname : Option String := none
deriving DecidableEq

/-- Spec: "Node descriptor: a stable record per remote node agent with url, az". -/
structure CoordinatorNode where
  url : String
  az : String := ""
deriving DecidableEq

/-! ## Cluster lock-call aggregation (`Cluster._request_lock_call_from_nodes`) -/

/-- `magic.LockCall`: the three node lock endpoints. -/
inductive LockCall where
  | lock
  | unlock
  | relock
deriving DecidableEq

/-- Aggregated cluster-wide result of a lock call (`cluster.LockResult`). -/
inductive LockResult where
  | ok
  | failure
  | exception
deriving DecidableEq

/-- A decoded JSON body as far as the lock endpoints care: either an object
`{"locked": b}` or anything else. -/
inductive LockJson where
  | lockedObj (locked : Bool)
  | other (tag : Nat)
deriving DecidableEq

/-- One element of the `request_from_nodes` result list for a lock call:
`None` (no response), a raised exception captured by `gather`, or an HTTP
response with its error flag and decoded JSON body (`none` body when the body
fails to decode as JSON). -/
inductive LockNodeResult where
  | noResponse
  | exception
  | response (is_error : Bool) (body : Option LockJson)
deriving DecidableEq

/-- The payload each node is expected to return for the given call
(`{"locked": true}` for lock/relock, `{"locked": false}` for unlock). -/
def expectedLockResult : LockCall → LockJson
  | .lock => .lockedObj true
  | .relock => .lockedObj true
  | .unlock => .lockedObj false

/-- One iteration of the result-inspection loop in
`Cluster._request_lock_call_from_nodes`: `rv` is the running aggregate. -/
def lockCallStep (expected : LockJson) (rv : LockResult) : LockNodeResult → LockResult
  | .noResponse => if rv ≠ .failure then .exception else rv
  | .exception => if rv ≠ .failure then .exception else rv
  | .response is_error body =>
    if is_error then .failure
    else if body ≠ some expected then .failure
    else rv

/-- `Cluster._request_lock_call_from_nodes`: classify each per-node result and
fold into a cluster-wide `LockResult`, starting from `ok`.  (The `zip` with the
node list and the statsd counter emission only log/observe and are omitted.) -/
def requestLockCallFromNodes (call : LockCall) (results : List LockNodeResult) : LockResult :=
  results.foldl (lockCallStep (expectedLockResult call)) .ok

/-- Does this per-node result count as `failure`: an HTTP error status, or a
response whose decoded body is not the expected payload (including non-JSON)? -/
def lockNodeFailure (expected : LockJson) : LockNodeResult → Bool
  | .response is_error body => is_error || body ≠ some expected
  | _ => false

/-- Does this per-node result count as `exception`: no response at all or a
transport error captured as an exception? -/
def lockNodeException : LockNodeResult → Bool
  | .noResponse => true
  | .exception => true
  | .response _ _ => false

/-! ## Work distribution (`build_node_index_datas` in plugins/base.py) -/

/-- Per-node upload assignment (`NodeIndexData` in plugins/base.py). -/
structure NodeIndexData where
  node_index : Nat
  sshashes : List SnapshotHash := []
  total_size : Nat := 0
deriving DecidableEq

/-- `NodeIndexData.append_sshash`. -/
def NodeIndexData.append_sshash (d : NodeIndexData) (h : SnapshotHash) : NodeIndexData :=
  { d with total_size := d.total_size + h.size, sshashes := d.sshashes ++ [h] }

/-- `setdefault(snapshot_hash, []).append(i)` on an insertion-ordered dict
embedded as an association list. -/
def addHash (m : List (SnapshotHash × List Nat)) (h : SnapshotHash) (i : Nat) :
    List (SnapshotHash × List Nat) :=
  match m with
  | [] => [(h, [i])]
  | (k, v) :: rest => if k = h then (k, v ++ [i]) :: rest else (k, v) :: addHash rest h i

/-- The `sshash_to_node_indexes` dict: for every hash, the (ordered) list of
node positions whose snapshot contains it. -/
def sshashToNodeIndexes (snapshots : List SnapshotResult) : List (SnapshotHash × List Nat) :=
  snapshots.enum.foldl
    (fun m p => (p.2.hashes.getD []).foldl (fun m h => addHash m h p.1) m) []

/-- `_sshash_to_node_indexes_key`: sort key `(len(indexes), -sshash.size)`. -/
def sshashSortKey (item : SnapshotHash × List Nat) : Nat × Int :=
  (item.2.length, -(item.1.size : Int))

/-- Boolean `≤` on the sort keys (lexicographic on `(Nat, Int)`). -/
def sshashKeyLe (a b : Nat × Int) : Bool :=
  a.1 < b.1 || (a.1 = b.1 && a.2 ≤ b.2)

/-- `node_index_datas[i].total_size`, with Python's out-of-range error replaced
by a junk 0 (never reached on inputs satisfying the function's assert). -/
def totalAt (datas : List NodeIndexData) (i : Nat) : Nat :=
  ((datas.get? i).map NodeIndexData.total_size).getD 0

/-- `min((node_index_datas[node_index].total_size, node_index) for ...)`:
the least-loaded holder, ties broken by the lowest node position. -/
def chooseNode (datas : List NodeIndexData) (idxs : List Nat) : Nat :=
  (listMinPair (idxs.map fun i => (totalAt datas i, i))).2

/-- The body of the assignment loop of `build_node_index_datas`: skip hashes
already in storage, otherwise append the hash to the least-loaded holder. -/
def assignStep (hexdigests : List String) (datas : List NodeIndexData)
    (item : SnapshotHash × List Nat) : List NodeIndexData :=
  if item.1.hexdigest ∈ hexdigests then datas
  else modifyNth (·.append_sshash item.1) (chooseNode datas item.2) datas

/-- `build_node_index_datas(hexdigests=..., snapshots=..., node_indices=...)`.
The already-stored digest set is embedded as a list (membership only). The
Python function asserts `len(snapshots) == len(node_indices)`; theorems about
it carry that as a hypothesis. -/
def build_node_index_datas (hexdigests : List String) (snapshots : List SnapshotResult)
    (node_indices : List Nat) : List NodeIndexData :=
  let m := sshashToNodeIndexes snapshots
  let todo := sortBy (fun a b => sshashKeyLe (sshashSortKey a) (sshashSortKey b)) m
  let datas := todo.foldl (assignStep hexdigests)
    (node_indices.map fun node_index => { node_index := node_index })
  datas.filter fun d => !d.sshashes.isEmpty

/-- All hashes assigned across a list of `NodeIndexData`, in order. -/
def assignedHashes (datas : List NodeIndexData) : List SnapshotHash :=
  (datas.map NodeIndexData.sshashes).flatten

/-! ## Restore placement (`get_node_to_backup_index*` in plugins/base.py) -/

/-- The exceptions raised by restore placement (`astacus.common.exceptions`;
messages are dropped, only the exception class matters). -/
inductive RestoreError where
  | insufficientNodes
  | insufficientAZs
  | notFound
deriving DecidableEq

/-- `collections.Counter(iterable)` embedded as an insertion-ordered
association list from key to count. -/
def counterAdd (m : List (String × Nat)) (k : String) : List (String × Nat) :=
  match m with
  | [] => [(k, 1)]
  | (k', c) :: rest => if k' = k then (k', c + 1) :: rest else (k', c) :: counterAdd rest k

/-- Build a `Counter` from a list of keys. -/
def counterOf (l : List String) : List (String × Nat) :=
  l.foldl counterAdd []

/-- `Counter.most_common()`: entries sorted by descending count; CPython uses a
stable sort, so equal counts keep insertion order. -/
def mostCommon (m : List (String × Nat)) : List (String × Nat) :=
  sortBy (fun a b => b.2 ≤ a.2) m

/-- First node position whose az matches and which has no backup index
assigned yet (the inner `for ... break` loop of
`get_node_to_backup_index_from_azs`). -/
def findFreeNode (nodes : List CoordinatorNode) (acc : List (Option Nat)) (az : String) :
    Option Nat :=
  (nodes.zip acc).findIdx? fun p => p.1.az == az && p.2.isNone

/-- Assign one snapshot index to the first free node of `node_az` (no-op when
no such node remains, exactly like the Python loop falling through). -/
def assignOneSnapshot (nodes : List CoordinatorNode) (node_az : String)
    (acc : List (Option Nat)) (backup_index : Nat) : List (Option Nat) :=
  match findFreeNode nodes acc node_az with
  | some node_index => acc.set node_index (some backup_index)
  | none => acc

/-- The inner `for backup_index, snapshot_result in enumerate(...)` loop for one
matched AZ pair. -/
def assignAzPair (snapshot_results : List SnapshotResult) (nodes : List CoordinatorNode)
    (backup_az node_az : String) (acc : List (Option Nat)) : List (Option Nat) :=
  snapshot_results.enum.foldl
    (fun acc p => if p.2.az = backup_az then assignOneSnapshot nodes node_az acc p.1 else acc)
    acc

/-- The outer loop of `get_node_to_backup_index_from_azs` over the zipped
`most_common()` lists, in the `Except` monad for the raise. -/
def azPairsFold (snapshot_results : List SnapshotResult) (nodes : List CoordinatorNode) :
    List ((String × Nat) × (String × Nat)) → List (Option Nat) →
    Except RestoreError (List (Option Nat))
  | [], acc => .ok acc
  | (⟨backup_az, backup_n⟩, ⟨node_az, node_n⟩) :: rest, acc =>
    if node_n < backup_n then .error .insufficientNodes
    else azPairsFold snapshot_results nodes rest
      (assignAzPair snapshot_results nodes backup_az node_az acc)

/-- `get_node_to_backup_index_from_azs`. -/
def get_node_to_backup_index_from_azs (snapshot_results : List SnapshotResult)
    (nodes : List CoordinatorNode) (azs_in_backup azs_in_nodes : List (String × Nat)) :
    Except RestoreError (List (Option Nat)) :=
  azPairsFold snapshot_results nodes
    ((mostCommon azs_in_backup).zip (mostCommon azs_in_nodes))
    (List.replicate nodes.length none)

/-- One entry of `RestoreRequest.partial_restore_nodes` (modelled from the
spec: `(node_index|node_url, backup_index|backup_hostname)` pairs; indices are
integers so that the source's `< 0` validation is meaningful). -/
structure PartialRestoreRequestNode where
  node_index : Option Int := none
  node_url : Option String := none
  backup_index : Option Int := none
  backup_hostname : Option String := none
deriving DecidableEq

/-- The `url_to_node_index` dict lookup: last node position with this url
(later dict writes overwrite earlier ones). `None` keys never occur. -/
def urlToNodeIndex (nodes : List CoordinatorNode) : Option String → Option Nat
  | none => none
  | some u => ((nodes.enum.filter fun p => p.2.url == u).getLast?).map Prod.fst

/-- The `hostname_to_backup_index` dict lookup: last snapshot position with
this (optional) hostname. -/
def hostnameToBackupIndex (snapshot_results : List SnapshotResult) (q : Option String) :
    Option Nat :=
  ((snapshot_results.enum.filter fun p => p.2.hostname == q).getLast?).map Prod.fst

/-- The loop body of `get_node_to_backup_index_from_partial_restore_nodes`. -/
def partialRestoreFold (snapshot_results : List SnapshotResult)
    (nodes : List CoordinatorNode) :
    List PartialRestoreRequestNode → List (Option Nat) →
    Except RestoreError (List (Option Nat))
  | [], acc => .ok acc
  | req_node :: rest, acc => do
    let node_index ←
      match req_node.node_index with
      | some ni =>
        if ni < 0 ∨ (nodes.length : Int) ≤ ni then Except.error RestoreError.notFound
        else Except.ok ni.toNat
      | none =>
        match urlToNodeIndex nodes req_node.node_url with
        | some i => Except.ok i
        | none => Except.error RestoreError.notFound
    let backup_index ←
      match req_node.backup_index with
      | some bi =>
        if bi < 0 ∨ (snapshot_results.length : Int) ≤ bi then Except.error RestoreError.notFound
        else Except.ok bi.toNat
      | none =>
        match hostnameToBackupIndex snapshot_results req_node.backup_hostname with
        | some i => Except.ok i
        | none => Except.error RestoreError.notFound
    partialRestoreFold snapshot_results nodes rest (acc.set node_index (some backup_index))

/-- `get_node_to_backup_index_from_partial_restore_nodes`. -/
def get_node_to_backup_index_from_partial_restore_nodes
    (partial_restore_nodes : List PartialRestoreRequestNode)
    (snapshot_results : List SnapshotResult) (nodes : List CoordinatorNode) :
    Except RestoreError (List (Option Nat)) :=
  partialRestoreFold snapshot_results nodes partial_restore_nodes
    (List.replicate nodes.length none)

/-- `get_node_to_backup_index`.  Python's `if partial_restore_nodes:` is truthy
exactly when the optional list is present and non-empty. -/
def get_node_to_backup_index
    (partial_restore_nodes : Option (List PartialRestoreRequestNode))
    (snapshot_results : List SnapshotResult) (nodes : List CoordinatorNode) :
    Except RestoreError (List (Option Nat)) :=
  if !(partial_restore_nodes.getD []).isEmpty then
    get_node_to_backup_index_from_partial_restore_nodes (partial_restore_nodes.getD [])
      snapshot_results nodes
  else
    let covered_nodes := snapshot_results.length
    let configured_nodes := nodes.length
    if configured_nodes < covered_nodes then .error .insufficientNodes
    else
      let azs_in_backup := counterOf (snapshot_results.map SnapshotResult.az)
      let azs_in_nodes := counterOf (nodes.map CoordinatorNode.az)
      if azs_in_nodes.length < azs_in_backup.length then .error .insufficientAZs
      else get_node_to_backup_index_from_azs snapshot_results nodes azs_in_backup azs_in_nodes

deriving instance DecidableEq for Except

/-! ## Result polling (`Cluster.wait_successful_results` in cluster.py) -/

/-- The progress fields the wait loop reads (`final`, `finished_failed`). -/
structure Progress where
  final : Bool := false
  finished_failed : Bool := false
deriving DecidableEq

/-- The parts of a parsed per-node poll result (`ipc.NodeResult`) that the
wait loop inspects. -/
structure PolledNodeResult where
  progress : Progress := {}
deriving DecidableEq

/-- The errors raised by `wait_successful_results` (all are
`WaitResultError`s in the source; the constructor records which raise site). -/
inductive WaitError where
  | incorrectStartResult
  | incorrectCount
  | tooManyFailures
  | nodeReportedFailure
  | timedOut
deriving DecidableEq

/-- One element of `start_results`: falsy (missing), an exception captured by
`gather`, or a parseable start result carrying a status url. -/
inductive StartItem where
  | missing
  | exception
  | started (status_url : String)
deriving DecidableEq

/-- Extract the status urls from the start results, failing on the first
missing or exceptional one (the leading validation loop). -/
def extractStatusUrls : List StartItem → Except WaitError (List String)
  | [] => .ok []
  | .started url :: rest => (fun us => url :: us) <$> extractStatusUrls rest
  | .missing :: _ => .error .incorrectStartResult
  | .exception :: _ => .error .incorrectStartResult

/-- Is this slot finished (`result is not None and result.progress.final`)? -/
def slotFinal (r : Option PolledNodeResult) : Bool :=
  match r with
  | some res => res.progress.final
  | none => false

/-- One pass of the inner `for i, (url, result) in enumerate(zip(urls, results))`
loop: `resp` gives the poll outcome per slot index for this tick (`none` is a
request that returned no response).  Returns the updated `results` and
`failures` lists or the raised error. -/
def pollPass (maximum_failures : Nat) (resp : Nat → Option PolledNodeResult) :
    List (Option PolledNodeResult) → List Nat → Nat →
    Except WaitError (List (Option PolledNodeResult) × List Nat)
  | [], _, _ => .ok ([], [])
  | r :: rs, [], _ => .ok (r :: rs, [])
  | r :: rs, f :: fs, i =>
    if slotFinal r then
      (fun p => (r :: p.1, f :: p.2)) <$> pollPass maximum_failures resp rs fs (i + 1)
    else
      match resp i with
      | none =>
        if maximum_failures ≤ f + 1 then .error .tooManyFailures
        else (fun p => (r :: p.1, (f + 1) :: p.2)) <$> pollPass maximum_failures resp rs fs (i + 1)
      | some res =>
        if res.progress.finished_failed then .error .nodeReportedFailure
        else (fun p => (some res :: p.1, 0 :: p.2)) <$> pollPass maximum_failures resp rs fs (i + 1)

/-- The `async for ... in exponential_backoff(...)` loop.  Each element of
`schedule` is the network behaviour of one backoff tick; the backoff generator
yields finitely many ticks within `duration`, so exhausting `schedule` is the
`timed out` raise of the source's `else:` clause. -/
def waitLoop (maximum_failures : Nat) :
    List (Nat → Option PolledNodeResult) → List (Option PolledNodeResult) → List Nat →
    Except WaitError (List PolledNodeResult)
  | [], _, _ => .error .timedOut
  | resp :: rest, results, failures =>
    match pollPass maximum_failures resp results failures 0 with
    | .error e => .error e
    | .ok (results', failures') =>
      if results'.all slotFinal then .ok (results'.filterMap id)
      else waitLoop maximum_failures rest results' failures'

/-- `Cluster.wait_successful_results`: validate the start results, check
`required_successes`, then poll all slots to completion.  (The progress-handler
callback only reports progress and is omitted; polling urls are abstracted to
slot indices in `schedule`.) -/
def wait_successful_results (maximum_failures : Nat) (required_successes : Option Nat)
    (start_results : List StartItem) (schedule : List (Nat → Option PolledNodeResult)) :
    Except WaitError (List PolledNodeResult) :=
  match extractStatusUrls start_results with
  | .error e => .error e
  | .ok urls =>
    if required_successes.elim false (fun n => urls.length != n) then .error .incorrectCount
    else waitLoop maximum_failures schedule
      (List.replicate urls.length none) (List.replicate urls.length 0)

/-! ## The cached `/list` handler (`_list_backups` in coordinator/api.py) -/

/-- `ipc.ListRequest` (modelled from the spec: the request body of `GET /list`;
only its equality is observed by the handler). -/
structure ListRequest where
  storage : String := ""
deriving DecidableEq

/-- The computed list response (opaque to the handler; only stored and
returned). -/
structure ListResponse where
  payload : Nat
deriving DecidableEq

/-- `state.CachedListResponse` (modelled from the spec: `(last_request,
last_response, monotonic_timestamp)`). -/
structure CachedListResponse where
  timestamp : Int
  list_request : ListRequest
  list_response : ListResponse
deriving DecidableEq

/-- The coordinator state fields the handler touches. -/
structure CoordinatorListState where
  cached_list_response : Option CachedListResponse := none
  cached_list_running : Bool := false
deriving DecidableEq

/-- What one `/list` request observes. -/
inductive ListOutcome where
  | cached (r : ListResponse)
  | busy
  | fresh (r : ListResponse)
  | computeError
deriving DecidableEq

/-- The cache inspection at the top of `_list_backups`: the cached response,
provided one exists, its age is below `list_ttl` and its recorded request
equals the incoming one. -/
def listCacheHit (list_ttl now : Int) (st : CoordinatorListState) (req : ListRequest) :
    Option ListResponse :=
  match st.cached_list_response with
  | some c =>
    if now - c.timestamp < list_ttl ∧ c.list_request = req then some c.list_response
    else none
  | none => none

/-- `_list_backups`: `now` is the monotonic clock at the request, `list_ttl`
the configured TTL, and `compute` the `list_backups(...)` call (`none` models
it raising an exception; the handler body has no try/finally).  Returns the
outcome and the post-request state. -/
def listBackupsHandler (list_ttl now : Int) (compute : ListRequest → Option ListResponse)
    (st : CoordinatorListState) (req : ListRequest) : ListOutcome × CoordinatorListState :=
  match listCacheHit list_ttl now st req with
  | some r => (.cached r, st)
  | none =>
    if st.cached_list_running then (.busy, st)
    else
      match compute req with
      | none => (.computeError, { st with cached_list_running := true })
      | some r =>
        (.fresh r,
          { cached_list_response := some ⟨now, req, r⟩, cached_list_running := false })

/-- Run a sequence of `/list` requests, threading the coordinator state. -/
def runListRequests (list_ttl : Int) (compute : ListRequest → Option ListResponse)
    (st : CoordinatorListState) : List (Int × ListRequest) → CoordinatorListState
  | [] => st
  | (now, req) :: rest =>
    runListRequests list_ttl compute (listBackupsHandler list_ttl now compute st req).2 rest

/-! ## Backup naming (`StepsContext.backup_name` in plugins/base.py) -/

/-- An attempt start time at second precision (the fields of a UTC
`datetime`; `utils.now()` returns an aware UTC timestamp). -/
structure UtcDateTime where
  year : Nat
  month : Nat
  day : Nat
  hour : Nat
  minute : Nat
  second : Nat
deriving DecidableEq

/-- Field ranges of a real timestamp (what `datetime` guarantees). -/
def UtcDateTime.Valid (t : UtcDateTime) : Prop :=
  t.year ≤ 9999 ∧ 1 ≤ t.month ∧ t.month ≤ 12 ∧ 1 ≤ t.day ∧ t.day ≤ 31 ∧
    t.hour ≤ 23 ∧ t.minute ≤ 59 ∧ t.second ≤ 59

instance (t : UtcDateTime) : Decidable t.Valid := by
  unfold UtcDateTime.Valid; infer_instance

/-- Chronological order at second granularity: lexicographic on
(year, month, day, hour, minute, second). -/
def UtcDateTime.le (t1 t2 : UtcDateTime) : Prop :=
  t1.year < t2.year ∨ (t1.year = t2.year ∧
    (t1.month < t2.month ∨ (t1.month = t2.month ∧
      (t1.day < t2.day ∨ (t1.day = t2.day ∧
        (t1.hour < t2.hour ∨ (t1.hour = t2.hour ∧
          (t1.minute < t2.minute ∨ (t1.minute = t2.minute ∧
            t1.second ≤ t2.second)))))))))

/-- Two zero-padded decimal digits, e.g. `7 ↦ "07"`. -/
def pad2 (n : Nat) : List Char :=
  [Nat.digitChar (n / 10), Nat.digitChar (n % 10)]

/-- Four zero-padded decimal digits, e.g. `2024 ↦ "2024"`. -/
def pad4 (n : Nat) : List Char :=
  pad2 (n / 100) ++ pad2 (n % 100)

/-- `attempt_start.isoformat(timespec="seconds")` without the constant
timezone suffix: `YYYY-MM-DDTHH:MM:SS`.  Modelled from the spec: "UTC ISO-8601
with second precision" (the `datetime` library is outside the sources; an
aware UTC timestamp appends the constant `+00:00`, which does not affect
lexicographic comparisons between names). -/
def isoformatSeconds (t : UtcDateTime) : List Char :=
  pad4 t.year ++ '-' :: (pad2 t.month ++ '-' :: (pad2 t.day ++
    'T' :: (pad2 t.hour ++ ':' :: (pad2 t.minute ++ ':' :: pad2 t.second))))

/-- Modelled from the spec: `magic.JSON_BACKUP_PREFIX` is not among the
sources; the spec only requires a fixed documented prefix constant, and the
ordering theorems below hold for any fixed prefix. -/
def JSON_BACKUP_PREFIX : List Char := ['b', 'a', 'c', 'k', 'u', 'p', '-']

/-- `StepsContext.backup_name` (the name is a Python `str`, embedded as its
list of characters; Python compares `str` lexicographically by code point). -/
def backup_name (attempt_start : UtcDateTime) : List Char :=
  JSON_BACKUP_PREFIX ++ isoformatSeconds attempt_start

/-- Strict lexicographic order on embedded strings (Python `<` on `str`). -/
def strLt (a b : List Char) : Prop :=
  List.Lex (· < ·) a b

/-- Lexicographic `≤` on embedded strings (Python `<=` on `str`). -/
def strLe (a b : List Char) : Prop :=
  strLt a b ∨ a = b

/-! # Theorems

Concrete inputs used by the literal end-to-end scenarios. -/

/-- Hash `h1` of the work-distribution scenario (size 10, on both nodes). -/
def scenarioH1 : SnapshotHash := ⟨"h1", 10⟩

/-- Hash `h2` of the work-distribution scenario (size 5, node 0 only). -/
def scenarioH2 : SnapshotHash := ⟨"h2", 5⟩

/-- Hash `h3` of the work-distribution scenario (size 7, node 1 only). -/
def scenarioH3 : SnapshotHash := ⟨"h3", 7⟩

/-- Node 0 snapshot of the work-distribution scenario: `[(h1,10),(h2,5)]`. -/
def scenarioSnap0 : SnapshotResult := { hashes := some [scenarioH1, scenarioH2] }

/-- Node 1 snapshot of the work-distribution scenario: `[(h1,10),(h3,7)]`. -/
def scenarioSnap1 : SnapshotResult := { hashes := some [scenarioH1, scenarioH3] }

/-- C3 counterexample: on the literal input `H = {}`,
`S[0] = [(h1,10),(h2,5)]`, `S[1] = [(h1,10),(h3,7)]`, the code does NOT
produce `node0 = [h2], node1 = [h3, h1]` as the claim states: after `h3` is
assigned to node 1 (total 7) and `h2` to node 0 (total 5), node 0 is the
least-loaded holder of `h1` (5 < 7), so `h1` goes to node 0, not node 1. -/
theorem build_node_index_datas_scenario_counterexample :
    build_node_index_datas [] [scenarioSnap0, scenarioSnap1] [0, 1] ≠
      [{ node_index := 0, sshashes := [scenarioH2], total_size := 5 },
       { node_index := 1, sshashes := [scenarioH3, scenarioH1], total_size := 17 }] := by
  decide

/-- C3 amended: on the literal input `H = {}`, `S[0] = [(h1,10),(h2,5)]`,
`S[1] = [(h1,10),(h3,7)]`, work distribution assigns `h3` to node 1, then `h2`
to node 0, then `h1` to node 0 (the least-loaded holder, 5 < 7): the output is
`node0 = [h2, h1]` (total 15) and `node1 = [h3]` (total 7). -/
theorem build_node_index_datas_scenario :
    build_node_index_datas [] [scenarioSnap0, scenarioSnap1] [0, 1] =
      [{ node_index := 0, sshashes := [scenarioH2, scenarioH1], total_size := 15 },
       { node_index := 1, sshashes := [scenarioH3], total_size := 7 }] := by
  decide

/-- C6: with coordinator node AZs `[x, x, y]` and backup snapshot AZs
`[x, y, y]` and no partial restore nodes, placement succeeds and returns
`node_to_backup_index = [1, 2, 0]`: the two `y`-AZ snapshots (indices 1, 2) go
to the two `x`-AZ nodes (positions 0, 1) and the `x`-AZ snapshot (index 0) to
the `y`-AZ node (position 2). -/
theorem get_node_to_backup_index_az_scenario :
    get_node_to_backup_index none
      [{ az := "x" }, { az := "y" }, { az := "y" }]
      [⟨"node0", "x"⟩, ⟨"node1", "x"⟩, ⟨"node2", "y"⟩] =
      .ok [some 1, some 2, some 0] := by
  decide

/-- C8: work distribution is a deterministic function of its inputs: runs on
identical stored-digest sets, snapshot lists and node index lists return
identical outputs, entry order and per-entry hash order included.  (The
Python-side determinism — insertion-ordered dicts, stable `sorted`, `min` on
tuples — is captured by the embedding being a pure function.) -/
theorem build_node_index_datas_deterministic
    (hexdigests hexdigests' : List String) (snapshots snapshots' : List SnapshotResult)
    (node_indices node_indices' : List Nat)
    (hH : hexdigests = hexdigests') (hS : snapshots = snapshots')
    (hN : node_indices = node_indices') :
    build_node_index_datas hexdigests snapshots node_indices =
      build_node_index_datas hexdigests' snapshots' node_indices' := by
  rw [hH, hS, hN]

/-- Witness for C8 at a concrete input. -/
theorem build_node_index_datas_deterministic_witness :
    build_node_index_datas ["h1"] [scenarioSnap0] [0] =
      build_node_index_datas ["h1"] [scenarioSnap0] [0] :=
  build_node_index_datas_deterministic ["h1"] ["h1"] [scenarioSnap0] [scenarioSnap0] [0] [0]
    rfl rfl rfl

/-! ## C1: lock-call aggregation -/

/-- The fold of `_request_lock_call_from_nodes` from an arbitrary running
aggregate: any failure-class result forces `failure`; otherwise any
exception-class result forces `exception`; otherwise the aggregate is
unchanged. -/
lemma foldl_lockCallStep (e : LockJson) :
    ∀ (results : List LockNodeResult) (rv : LockResult),
      results.foldl (lockCallStep e) rv =
        if rv = .failure ∨ results.any (lockNodeFailure e) then .failure
        else if rv = .exception ∨ results.any lockNodeException then .exception
        else rv
  | [], rv => by cases rv <;> simp
  | r :: rest, rv => by
    rw [List.foldl_cons, foldl_lockCallStep e rest]
    cases r with
    | noResponse =>
      cases rv <;> simp [lockCallStep, lockNodeFailure, lockNodeException]
    | exception =>
      cases rv <;> simp [lockCallStep, lockNodeFailure, lockNodeException]
    | response is_error body =>
      cases is_error <;> by_cases hb : body = some e <;>
        cases rv <;> simp [lockCallStep, lockNodeFailure, lockNodeException, hb]

/-- A per-node result is neither failure-class nor exception-class exactly when
it is a non-error response with the expected body. -/
lemma lockNode_ok_iff (e : LockJson) (r : LockNodeResult) :
    (lockNodeFailure e r = false ∧ lockNodeException r = false) ↔
      r = .response false (some e) := by
  cases r with
  | noResponse => simp [lockNodeFailure, lockNodeException]
  | exception => simp [lockNodeFailure, lockNodeException]
  | response is_error body =>
    cases is_error <;> by_cases hb : body = some e <;>
      simp [lockNodeFailure, lockNodeException, hb]

/-- The full characterization of a lock/relock aggregate: `failure` wins,
then `exception`, else `ok`. -/
lemma requestLockCallFromNodes_eq (call : LockCall) (results : List LockNodeResult)
    (hcall : call = .lock ∨ call = .relock) :
    requestLockCallFromNodes call results =
      if results.any (lockNodeFailure (.lockedObj true)) then .failure
      else if results.any lockNodeException then .exception
      else .ok := by
  have he : expectedLockResult call = .lockedObj true := by
    rcases hcall with h | h <;> subst h <;> rfl
  unfold requestLockCallFromNodes
  rw [he, foldl_lockCallStep]
  simp

/-- C1: for a cluster lock or relock call, the aggregated result of
`_request_lock_call_from_nodes` is `ok` iff every per-node call returned the
payload `{locked: true}` (a non-error response decoding to it); it is `failure`
iff some node returned an error status or an unexpected/non-JSON payload
(`failure` is sticky: its presence alone decides the aggregate); and it is
`exception` iff no node was failure-class and some node produced no response or
a transport error. -/
theorem lock_call_aggregation (call : LockCall) (results : List LockNodeResult)
    (hcall : call = .lock ∨ call = .relock) :
    (requestLockCallFromNodes call results = .ok ↔
      ∀ r ∈ results, r = .response false (some (.lockedObj true))) ∧
    (requestLockCallFromNodes call results = .failure ↔
      results.any (lockNodeFailure (.lockedObj true)) = true) ∧
    (requestLockCallFromNodes call results = .exception ↔
      results.any (lockNodeFailure (.lockedObj true)) = false ∧
        results.any lockNodeException = true) := by
  rw [requestLockCallFromNodes_eq call results hcall]
  cases hf : results.any (lockNodeFailure (.lockedObj true)) with
  | true =>
    refine ⟨⟨fun h => by simp at h, fun hall => ?_⟩, by simp, by simp⟩
    exfalso
    rcases List.any_eq_true.mp hf with ⟨r, hr, hfail⟩
    have hok := (lockNode_ok_iff (.lockedObj true) r).mpr (hall r hr)
    rw [hok.1] at hfail
    exact Bool.false_ne_true hfail
  | false =>
    cases hx : results.any lockNodeException with
    | true =>
      refine ⟨⟨fun h => by simp at h, fun hall => ?_⟩, by simp, by simp⟩
      exfalso
      rcases List.any_eq_true.mp hx with ⟨r, hr, hexc⟩
      have hok := (lockNode_ok_iff (.lockedObj true) r).mpr (hall r hr)
      rw [hok.2] at hexc
      exact Bool.false_ne_true hexc
    | false =>
      refine ⟨⟨fun _ r hr => ?_, fun _ => by simp⟩, by simp, by simp⟩
      exact (lockNode_ok_iff _ r).mp
        ⟨Bool.eq_false_iff.mpr (List.any_eq_false.mp hf r hr),
         Bool.eq_false_iff.mpr (List.any_eq_false.mp hx r hr)⟩

/-- Witness for C1: three nodes where the first returns `{locked: true}`, the
second an HTTP error and the third nothing; the aggregate is `failure`. -/
theorem lock_call_aggregation_witness :
    (requestLockCallFromNodes .lock
        [.response false (some (.lockedObj true)), .response true none, .noResponse] = .ok ↔
      ∀ r ∈ [LockNodeResult.response false (some (.lockedObj true)),
             .response true none, .noResponse],
        r = .response false (some (.lockedObj true))) ∧
    (requestLockCallFromNodes .lock
        [.response false (some (.lockedObj true)), .response true none, .noResponse] = .failure ↔
      [LockNodeResult.response false (some (.lockedObj true)),
       .response true none, .noResponse].any (lockNodeFailure (.lockedObj true)) = true) ∧
    (requestLockCallFromNodes .lock
        [.response false (some (.lockedObj true)), .response true none, .noResponse] = .exception ↔
      [LockNodeResult.response false (some (.lockedObj true)),
       .response true none, .noResponse].any (lockNodeFailure (.lockedObj true)) = false ∧
        [LockNodeResult.response false (some (.lockedObj true)),
         .response true none, .noResponse].any lockNodeException = true) :=
  lock_call_aggregation .lock _ (Or.inl rfl)

/-! ## C5: restore placement failure conditions -/

/-- The keys of an embedded `Counter`, in insertion order. -/
def counterKeys (m : List (String × Nat)) : List String :=
  m.map Prod.fst

/-- Adding one occurrence either leaves the key list unchanged or appends the
new key at the end. -/
lemma counterAdd_keys (m : List (String × Nat)) (k : String) :
    counterKeys (counterAdd m k) =
      if k ∈ counterKeys m then counterKeys m else counterKeys m ++ [k] := by
  induction m with
  | nil => simp [counterAdd, counterKeys]
  | cons kv rest ih =>
    obtain ⟨k', c⟩ := kv
    by_cases hk : k' = k
    · subst hk
      simp [counterAdd, counterKeys]
    · have hne : k ≠ k' := fun h => hk h.symm
      simp only [counterAdd, if_neg hk, counterKeys, List.map_cons]
      have ih' : List.map Prod.fst (counterAdd rest k) =
          if k ∈ List.map Prod.fst rest then List.map Prod.fst rest
          else List.map Prod.fst rest ++ [k] := ih
      rw [ih']
      by_cases hmem : k ∈ List.map Prod.fst rest
      · rw [if_pos hmem, if_pos (List.mem_cons_of_mem _ hmem)]
      · rw [if_neg hmem, if_neg (by simp [hne, hmem])]
        rfl

/-- Folding `counterAdd` keeps the key list duplicate-free and its key set is
the union with the keys seen. -/
lemma counter_fold_keys :
    ∀ (l : List String) (m : List (String × Nat)), (counterKeys m).Nodup →
      (counterKeys (l.foldl counterAdd m)).Nodup ∧
        (counterKeys (l.foldl counterAdd m)).toFinset = (counterKeys m).toFinset ∪ l.toFinset
  | [], m, h => ⟨h, by simp⟩
  | k :: rest, m, h => by
    rw [List.foldl_cons]
    have hkeys := counterAdd_keys m k
    have hnodup : (counterKeys (counterAdd m k)).Nodup := by
      rw [hkeys]
      by_cases hmem : k ∈ counterKeys m
      · simpa [hmem] using h
      · simp only [if_neg hmem]
        simp [List.nodup_append, h, hmem]
    have hset : (counterKeys (counterAdd m k)).toFinset =
        insert k (counterKeys m).toFinset := by
      rw [hkeys]
      by_cases hmem : k ∈ counterKeys m
      · simp only [if_pos hmem]
        ext x
        simp only [List.mem_toFinset, Finset.mem_insert]
        constructor
        · exact fun hx => Or.inr hx
        · rintro (rfl | hx)
          · exact hmem
          · exact hx
      · simp only [if_neg hmem]
        ext x
        simp [List.mem_toFinset, or_comm]
    obtain ⟨ih1, ih2⟩ := counter_fold_keys rest (counterAdd m k) hnodup
    refine ⟨ih1, ?_⟩
    rw [ih2, hset]
    ext x
    simp only [Finset.mem_union, Finset.mem_insert, List.mem_toFinset, List.mem_cons]
    tauto

/-- `len(Counter(l))` is the number of distinct elements of `l`. -/
lemma counterOf_length (l : List String) :
    (counterOf l).length = l.toFinset.card := by
  obtain ⟨h1, h2⟩ := counter_fold_keys l [] (by simp [counterKeys])
  show (l.foldl counterAdd []).length = l.toFinset.card
  have hlen : (l.foldl counterAdd []).length =
      (counterKeys (l.foldl counterAdd [])).length := by
    simp [counterKeys]
  rw [hlen, ← List.toFinset_card_of_nodup h1, h2]
  simp [counterKeys]

/-- C5 amended: without partial restore nodes, `get_node_to_backup_index`
raises `InsufficientNodesException` whenever there are fewer coordinator nodes
than backup snapshots; and whenever that is not the case it raises
`InsufficientAZsException` whenever the backup has more distinct availability
zones than the coordinator node set.  (When both conditions hold the node-count
check fires first.)  In both cases the result is an error: no assignment is
produced. -/
theorem get_node_to_backup_index_insufficient
    (partial_restore_nodes : Option (List PartialRestoreRequestNode))
    (snapshot_results : List SnapshotResult) (nodes : List CoordinatorNode)
    (hpart : (partial_restore_nodes.getD []).isEmpty = true) :
    (nodes.length < snapshot_results.length →
      get_node_to_backup_index partial_restore_nodes snapshot_results nodes =
        .error .insufficientNodes) ∧
    (snapshot_results.length ≤ nodes.length →
      (nodes.map CoordinatorNode.az).toFinset.card <
          (snapshot_results.map SnapshotResult.az).toFinset.card →
      get_node_to_backup_index partial_restore_nodes snapshot_results nodes =
        .error .insufficientAZs) := by
  unfold get_node_to_backup_index
  rw [hpart]
  simp only [Bool.not_true, Bool.false_eq_true, if_false]
  constructor
  · intro hlt
    rw [if_pos hlt]
  · intro hge hcard
    rw [if_neg (by omega), if_pos (by rw [counterOf_length, counterOf_length]; exact hcard)]

/-- Witness for C5 (amended) on a concrete input: two coordinator nodes in one
AZ cannot host a backup spanning two AZs. -/
theorem get_node_to_backup_index_insufficient_witness :
    ((List.map CoordinatorNode.az [⟨"n0", "x"⟩, ⟨"n1", "x"⟩]).toFinset.card <
        (List.map SnapshotResult.az [{ az := "a" }, { az := "b" }]).toFinset.card) ∧
    get_node_to_backup_index none [{ az := "a" }, { az := "b" }]
        [⟨"n0", "x"⟩, ⟨"n1", "x"⟩] = .error .insufficientAZs := by
  refine ⟨by decide, ?_⟩
  exact (get_node_to_backup_index_insufficient none
    [{ az := "a" }, { az := "b" }] [⟨"n0", "x"⟩, ⟨"n1", "x"⟩] (by decide)).2
    (by decide) (by decide)

/-- C5 counterexample: when both failure conditions hold at once — a single
`x`-AZ coordinator node for a backup with snapshots in AZs `a` and `b` — the
code raises `InsufficientNodesException`, not `InsufficientAZsException`, even
though the backup has more distinct AZs than the coordinator set; the claim's
"raises InsufficientAZsException whenever" is false at this input. -/
theorem get_node_to_backup_index_insufficient_counterexample :
    ((List.map CoordinatorNode.az [⟨"n0", "x"⟩]).toFinset.card <
        (List.map SnapshotResult.az [{ az := "a" }, { az := "b" }]).toFinset.card) ∧
    get_node_to_backup_index none [{ az := "a" }, { az := "b" }] [⟨"n0", "x"⟩] =
      .error .insufficientNodes ∧
    get_node_to_backup_index none [{ az := "a" }, { az := "b" }] [⟨"n0", "x"⟩] ≠
      .error .insufficientAZs := by
  refine ⟨by decide, by decide, by decide⟩


/-! ## C7 and C10: the cached `/list` handler -/

/-- The cache probe succeeds exactly when a cached entry exists whose recorded
request equals the incoming one and whose age is below the TTL. -/
lemma listCacheHit_eq_some_iff (list_ttl now : Int) (st : CoordinatorListState)
    (req : ListRequest) (r : ListResponse) :
    listCacheHit list_ttl now st req = some r ↔
      ∃ c, st.cached_list_response = some c ∧ now - c.timestamp < list_ttl ∧
        c.list_request = req ∧ c.list_response = r := by
  unfold listCacheHit
  cases hc : st.cached_list_response with
  | none => simp
  | some c =>
    by_cases hfresh : now - c.timestamp < list_ttl ∧ c.list_request = req
    · simp [hfresh, eq_comm]
    · simp [hfresh]
      rintro h1 h2
      exact absurd ⟨h1, h2⟩ hfresh

/-- On a cache hit the handler returns the cached response unchanged state. -/
lemma listBackupsHandler_hit (list_ttl now : Int) (compute : ListRequest → Option ListResponse)
    (st : CoordinatorListState) (req : ListRequest) (r : ListResponse)
    (hhit : listCacheHit list_ttl now st req = some r) :
    listBackupsHandler list_ttl now compute st req = (.cached r, st) := by
  unfold listBackupsHandler
  rw [hhit]

/-- With no cache hit and a build in progress, the handler answers busy
(HTTP 429) and leaves the state alone. -/
lemma listBackupsHandler_busy (list_ttl now : Int) (compute : ListRequest → Option ListResponse)
    (st : CoordinatorListState) (req : ListRequest)
    (hhit : listCacheHit list_ttl now st req = none)
    (hrun : st.cached_list_running = true) :
    listBackupsHandler list_ttl now compute st req = (.busy, st) := by
  unfold listBackupsHandler
  rw [hhit, hrun]
  rfl

/-- With no cache hit, no build in progress, and a computation that raises,
the handler propagates the error with the building flag left set. -/
lemma listBackupsHandler_computeError (list_ttl now : Int)
    (compute : ListRequest → Option ListResponse) (st : CoordinatorListState)
    (req : ListRequest) (hhit : listCacheHit list_ttl now st req = none)
    (hrun : st.cached_list_running = false) (hcomp : compute req = none) :
    listBackupsHandler list_ttl now compute st req =
      (.computeError, { st with cached_list_running := true }) := by
  unfold listBackupsHandler
  rw [hhit, hrun, hcomp]
  rfl

/-- With no cache hit and no build in progress, the handler computes a fresh
response, stores it with the request, and clears the building flag. -/
lemma listBackupsHandler_fresh (list_ttl now : Int)
    (compute : ListRequest → Option ListResponse) (st : CoordinatorListState)
    (req : ListRequest) (r : ListResponse) (hhit : listCacheHit list_ttl now st req = none)
    (hrun : st.cached_list_running = false) (hcomp : compute req = some r) :
    listBackupsHandler list_ttl now compute st req =
      (.fresh r, { cached_list_response := some ⟨now, req, r⟩, cached_list_running := false }) := by
  unfold listBackupsHandler
  rw [hhit, hrun, hcomp]
  rfl

/-- C7: the `/list` handler returns the cached response iff a cached response
exists whose recorded request equals the incoming request and whose age is
below `list_ttl` (so a request differing from the cached one never gets the
cached response, even within the TTL); otherwise, if a build is in progress it
answers busy (HTTP 429) and leaves the state alone; otherwise it computes a
fresh response, stores it together with the request, and clears the building
flag. -/
theorem list_handler_cache_behaviour (list_ttl now : Int)
    (compute : ListRequest → Option ListResponse) (st : CoordinatorListState)
    (req : ListRequest) :
    (∀ r, (listBackupsHandler list_ttl now compute st req).1 = .cached r ↔
      ∃ c, st.cached_list_response = some c ∧ now - c.timestamp < list_ttl ∧
        c.list_request = req ∧ c.list_response = r) ∧
    (∀ r, (listBackupsHandler list_ttl now compute st req).1 = .cached r →
      (listBackupsHandler list_ttl now compute st req).2 = st) ∧
    ((listBackupsHandler list_ttl now compute st req).1 = .busy ↔
      listCacheHit list_ttl now st req = none ∧ st.cached_list_running = true) ∧
    ((listBackupsHandler list_ttl now compute st req).1 = .busy →
      (listBackupsHandler list_ttl now compute st req).2 = st) ∧
    (∀ r, listCacheHit list_ttl now st req = none → st.cached_list_running = false →
      compute req = some r →
      (listBackupsHandler list_ttl now compute st req).1 = .fresh r ∧
        (listBackupsHandler list_ttl now compute st req).2 =
          { cached_list_response := some ⟨now, req, r⟩, cached_list_running := false }) := by
  have hchar := fun r => listCacheHit_eq_some_iff list_ttl now st req r
  cases hhit : listCacheHit list_ttl now st req with
  | some r0 =>
    rw [listBackupsHandler_hit list_ttl now compute st req r0 hhit]
    refine ⟨?_, ?_, ?_, ?_, ?_⟩
    · intro r
      rw [← hchar r, hhit]
      constructor
      · rintro h; cases h; rfl
      · rintro h; cases h; rfl
    · intro r _
      rfl
    · constructor
      · intro h; cases h
      · rintro ⟨h, _⟩; cases h
    · intro h
      cases h
    · intro r h
      cases h
  | none =>
    have hnosome : ∀ r, ¬ (∃ c, st.cached_list_response = some c ∧
        now - c.timestamp < list_ttl ∧ c.list_request = req ∧ c.list_response = r) := by
      intro r hex
      have hx := (hchar r).mpr hex
      rw [hhit] at hx
      cases hx
    cases hrunv : st.cached_list_running with
    | true =>
      rw [listBackupsHandler_busy list_ttl now compute st req hhit hrunv]
      refine ⟨?_, ?_, ?_, ?_, ?_⟩
      · intro r
        constructor
        · intro h; cases h
        · intro hex; exact absurd hex (hnosome r)
      · intro r h
        cases h
      · constructor
        · intro _; exact ⟨rfl, rfl⟩
        · intro _; rfl
      · intro _
        rfl
      · intro r _ hrun'
        exact absurd hrun' (by decide)
    | false =>
      cases hcomp : compute req with
      | none =>
        rw [listBackupsHandler_computeError list_ttl now compute st req hhit hrunv hcomp]
        refine ⟨?_, ?_, ?_, ?_, ?_⟩
        · intro r
          constructor
          · intro h; cases h
          · intro hex; exact absurd hex (hnosome r)
        · intro r h
          cases h
        · constructor
          · intro h; cases h
          · rintro ⟨_, hrun⟩
            exact absurd hrun (by decide)
        · intro h
          cases h
        · intro r _ _ hcomp'
          cases hcomp'
      | some r1 =>
        rw [listBackupsHandler_fresh list_ttl now compute st req r1 hhit hrunv hcomp]
        refine ⟨?_, ?_, ?_, ?_, ?_⟩
        · intro r
          constructor
          · intro h; cases h
          · intro hex; exact absurd hex (hnosome r)
        · intro r h
          cases h
        · constructor
          · intro h; cases h
          · rintro ⟨_, hrun⟩
            exact absurd hrun (by decide)
        · intro h
          cases h
        · intro r _ _ hcomp'
          cases hcomp'
          exact ⟨rfl, rfl⟩

/-- C10: when the listing computation raises after the handler set
`cached_list_running` (entered with the flag clear and no cache hit), the
post-state keeps the flag set and the cache unchanged; and from any state with
the flag set, every request leaves the state untouched and answers busy unless
it hits a fresh matching cache entry — so, by induction over any sequence of
subsequent requests, the flag is never reset for the life of the process. -/
theorem list_handler_stuck_building (list_ttl : Int)
    (compute : ListRequest → Option ListResponse) (st : CoordinatorListState) :
    (∀ now req, listCacheHit list_ttl now st req = none →
      st.cached_list_running = false → compute req = none →
      listBackupsHandler list_ttl now compute st req =
        (.computeError, { st with cached_list_running := true })) ∧
    (st.cached_list_running = true →
      (∀ now req, (listBackupsHandler list_ttl now compute st req).2 = st ∧
        ((listBackupsHandler list_ttl now compute st req).1 = .busy ↔
          listCacheHit list_ttl now st req = none)) ∧
      (∀ requests, runListRequests list_ttl compute st requests = st)) := by
  constructor
  · intro now req hhit hrun hcomp
    exact listBackupsHandler_computeError list_ttl now compute st req hhit hrun hcomp
  · intro hrun
    have hstep : ∀ now req, (listBackupsHandler list_ttl now compute st req).2 = st ∧
        ((listBackupsHandler list_ttl now compute st req).1 = .busy ↔
          listCacheHit list_ttl now st req = none) := by
      intro now req
      cases hhit : listCacheHit list_ttl now st req with
      | some r0 =>
        rw [listBackupsHandler_hit list_ttl now compute st req r0 hhit]
        refine ⟨rfl, ?_⟩
        constructor
        · intro h; cases h
        · intro h; cases h
      | none =>
        rw [listBackupsHandler_busy list_ttl now compute st req hhit hrun]
        exact ⟨rfl, by simp⟩
    refine ⟨hstep, ?_⟩
    intro requests
    induction requests with
    | nil => rfl
    | cons p rest ih =>
      obtain ⟨now, req⟩ := p
      unfold runListRequests
      rw [(hstep now req).1]
      exact ih

/-- Witness for C7: on an empty state, a request computes and stores a fresh
response. -/
theorem list_handler_cache_behaviour_witness :
    (listBackupsHandler 10 0 (fun _ => some ⟨7⟩) {} ⟨"s"⟩).1 = .fresh ⟨7⟩ ∧
      (listBackupsHandler 10 0 (fun _ => some ⟨7⟩) {} ⟨"s"⟩).2 =
        { cached_list_response := some ⟨0, ⟨"s"⟩, ⟨7⟩⟩, cached_list_running := false } :=
  (list_handler_cache_behaviour 10 0 (fun _ => some ⟨7⟩) {} ⟨"s"⟩).2.2.2.2 ⟨7⟩ rfl rfl rfl

/-- Witness for C10: a raising computation leaves the flag set, and a state
with the flag set absorbs arbitrary request sequences unchanged. -/
theorem list_handler_stuck_building_witness :
    (listBackupsHandler 10 0 (fun _ => none) {} ⟨"s"⟩ =
      (.computeError, { cached_list_running := true })) ∧
    runListRequests 10 (fun _ => none) { cached_list_running := true }
      [(1, ⟨"s"⟩), (2, ⟨"t"⟩)] = { cached_list_running := true } :=
  ⟨(list_handler_stuck_building 10 (fun _ => none) {}).1 0 ⟨"s"⟩ rfl rfl rfl,
   ((list_handler_stuck_building 10 (fun _ => none)
      { cached_list_running := true }).2 rfl).2 [(1, ⟨"s"⟩), (2, ⟨"t"⟩)]⟩

/-! ## C4: poller failure counting -/

/-- A single-slot pass whose poll returns no response below the failure bound
increments the slot's failure counter. -/
lemma pollPass_none_single (mf f : Nat) (hlt : f + 1 < mf) :
    pollPass mf (fun _ => none) [none] [f] 0 = .ok ([none], [f + 1]) := by
  unfold pollPass
  simp [slotFinal, Nat.not_le.mpr hlt]
  rfl

/-- The single-slot wait against a schedule of `k` no-response ticks: the
counter climbs by one per tick, so the wait times out while `f + k` stays
below `maximum_failures` and raises `too many failures` as soon as the counter
reaches it. -/
lemma waitLoop_none_single (mf : Nat) :
    ∀ (k f : Nat),
      (f + k < mf →
        waitLoop mf (List.replicate k (fun _ => none)) [none] [f] = .error .timedOut) ∧
      (mf ≤ f + k → f < mf →
        waitLoop mf (List.replicate k (fun _ => none)) [none] [f] = .error .tooManyFailures)
  | 0, f => by
    constructor
    · intro _
      rfl
    · intro h1 h2
      omega
  | k + 1, f => by
    constructor
    · intro hlt
      rw [List.replicate_succ]
      unfold waitLoop
      rw [pollPass_none_single mf f (by omega)]
      simp [slotFinal]
      exact (waitLoop_none_single mf k (f + 1)).1 (by omega)
    · intro hge hf
      rw [List.replicate_succ]
      unfold waitLoop
      by_cases hstop : mf ≤ f + 1
      · unfold pollPass
        simp [slotFinal, hstop]
      · rw [pollPass_none_single mf f (by omega)]
        simp [slotFinal]
        exact (waitLoop_none_single mf k (f + 1)).2 (by omega) (by omega)

/-- A successful poll on a non-final slot stores the parsed result and resets
the slot's failure counter to zero, whatever its previous value. -/
lemma pollPass_success_single (mf f : Nat) (resp : Nat → Option PolledNodeResult)
    (r : Option PolledNodeResult) (res : PolledNodeResult)
    (hr : slotFinal r = false) (hresp : resp 0 = some res)
    (hok : res.progress.finished_failed = false) :
    pollPass mf resp [r] [f] 0 = .ok ([some res], [0]) := by
  unfold pollPass
  rw [hr, hresp]
  simp [hok]
  rfl

/-- C4: in `wait_successful_results`, exactly `maximum_failures` consecutive
no-response polls on a single slot raise `WaitResultError("too many
failures")` — with one tick fewer the wait is still alive (it times out when
the schedule ends) — and a successful poll on a slot resets that slot's
failure counter to zero and replaces its stored result. -/
theorem wait_poller_failure_counting (mf : Nat) (url : String)
    (res : PolledNodeResult) (r : Option PolledNodeResult) (f : Nat)
    (hmf : 1 ≤ mf) (hres : res.progress.finished_failed = false)
    (hr : slotFinal r = false) :
    wait_successful_results mf none [.started url]
        (List.replicate mf (fun _ => none)) = .error .tooManyFailures ∧
    wait_successful_results mf none [.started url]
        (List.replicate (mf - 1) (fun _ => none)) = .error .timedOut ∧
    pollPass mf (fun _ => some res) [r] [f] 0 = .ok ([some res], [0]) := by
  have hsetup : ∀ sched, wait_successful_results mf none [.started url] sched =
      waitLoop mf sched [none] [0] := by
    intro sched
    rfl
  refine ⟨?_, ?_, ?_⟩
  · rw [hsetup]
    exact (waitLoop_none_single mf mf 0).2 (by omega) (by omega)
  · rw [hsetup]
    exact (waitLoop_none_single mf (mf - 1) 0).1 (by omega)
  · exact pollPass_success_single mf f (fun _ => some res) r res hr rfl hres

/-- Witness for C4 with `maximum_failures = 2`: two nil polls fail the wait,
one does not, and a successful poll resets a counter of 5 to 0. -/
theorem wait_poller_failure_counting_witness :
    wait_successful_results 2 none [.started "s"]
        (List.replicate 2 (fun _ => none)) = .error .tooManyFailures ∧
    wait_successful_results 2 none [.started "s"]
        (List.replicate 1 (fun _ => none)) = .error .timedOut ∧
    pollPass 2 (fun _ => some { progress := { final := true } }) [none] [5] 0 =
      .ok ([some { progress := { final := true } }], [0]) :=
  wait_poller_failure_counting 2 "s" { progress := { final := true } } none 5
    (by decide) rfl rfl

/-! ## C2: deduplicating work distribution -/

/-- The `(node position, hash)` pairs enumerated by the nested loops that
build `sshash_to_node_indexes`, flattened. -/
def snapshotPairs (snapshots : List SnapshotResult) : List (Nat × SnapshotHash) :=
  snapshots.enum.flatMap fun p => (p.2.hashes.getD []).map fun h => (p.1, h)

/-- A nested fold over snapshots and their hashes equals the fold over the
flattened pair list. -/
lemma foldl_flatMap_addHash :
    ∀ (l : List (Nat × SnapshotResult)) (m : List (SnapshotHash × List Nat)),
      l.foldl (fun m p => (p.2.hashes.getD []).foldl (fun m h => addHash m h p.1) m) m =
        (l.flatMap fun p => (p.2.hashes.getD []).map fun h => (p.1, h)).foldl
          (fun m q => addHash m q.2 q.1) m
  | [], _ => rfl
  | p :: rest, m => by
    rw [List.foldl_cons, List.flatMap_cons, List.foldl_append, List.foldl_map]
    exact foldl_flatMap_addHash rest _

/-- `sshash_to_node_indexes` as a single fold over the flattened pairs. -/
lemma sshashToNodeIndexes_eq_foldPairs (snapshots : List SnapshotResult) :
    sshashToNodeIndexes snapshots =
      (snapshotPairs snapshots).foldl (fun m q => addHash m q.2 q.1) [] :=
  foldl_flatMap_addHash snapshots.enum []

/-- The keys of the `sshash_to_node_indexes` dict, in insertion order. -/
def hmKeys (m : List (SnapshotHash × List Nat)) : List SnapshotHash :=
  m.map Prod.fst

/-- `setdefault(...).append(...)` either leaves the key list unchanged or
appends the new key at the end. -/
lemma addHash_keys (m : List (SnapshotHash × List Nat)) (h : SnapshotHash) (i : Nat) :
    hmKeys (addHash m h i) =
      if h ∈ hmKeys m then hmKeys m else hmKeys m ++ [h] := by
  induction m with
  | nil => simp [addHash, hmKeys]
  | cons kv rest ih =>
    obtain ⟨k, v⟩ := kv
    by_cases hk : k = h
    · subst hk
      simp [addHash, hmKeys]
    · have hne : h ≠ k := fun hh => hk hh.symm
      simp only [addHash, if_neg hk, hmKeys, List.map_cons]
      have ih' : List.map Prod.fst (addHash rest h i) =
          if h ∈ List.map Prod.fst rest then List.map Prod.fst rest
          else List.map Prod.fst rest ++ [h] := ih
      rw [ih']
      by_cases hmem : h ∈ List.map Prod.fst rest
      · rw [if_pos hmem, if_pos (List.mem_cons_of_mem _ hmem)]
      · rw [if_neg hmem, if_neg (by simp [hne, hmem])]
        rfl

/-- Invariant of the hash map: every value list is non-empty and every node
position in it is below `n`. -/
def ValueBound (n : Nat) (m : List (SnapshotHash × List Nat)) : Prop :=
  ∀ kv ∈ m, kv.2 ≠ [] ∧ ∀ j ∈ kv.2, j < n

/-- `addHash` preserves `ValueBound` when the appended position is in range. -/
lemma valueBound_addHash {n : Nat} {m : List (SnapshotHash × List Nat)}
    (hm : ValueBound n m) {h : SnapshotHash} {i : Nat} (hi : i < n) :
    ValueBound n (addHash m h i) := by
  induction m with
  | nil =>
    intro kv hkv
    simp only [addHash, List.mem_singleton] at hkv
    subst hkv
    exact ⟨by simp, by simpa using hi⟩
  | cons kv0 rest ih =>
    obtain ⟨k, v⟩ := kv0
    by_cases hk : k = h
    · subst hk
      simp only [addHash, if_pos rfl]
      intro kv hkv
      rcases List.mem_cons.mp hkv with rfl | hkv
      · obtain ⟨_, hbound⟩ := hm (k, v) (List.mem_cons_self _ _)
        refine ⟨by simp, ?_⟩
        intro j hj
        rcases List.mem_append.mp hj with hj | hj
        · exact hbound j hj
        · simpa using (List.mem_singleton.mp hj) ▸ hi
      · exact hm kv (List.mem_cons_of_mem _ hkv)
    · simp only [addHash, if_neg hk]
      intro kv hkv
      rcases List.mem_cons.mp hkv with rfl | hkv
      · exact hm (k, v) (List.mem_cons_self _ _)
      · exact ih (fun kv' hkv' => hm kv' (List.mem_cons_of_mem _ hkv')) kv hkv

/-- Folding `addHash` over a pair list with in-range positions keeps the keys
duplicate-free, keeps all value lists non-empty and in range, and the final key
set is the initial keys plus the hashes of the pairs. -/
lemma foldPairs_invariants :
    ∀ (pairs : List (Nat × SnapshotHash)) (m : List (SnapshotHash × List Nat)) (n : Nat),
      (hmKeys m).Nodup → ValueBound n m → (∀ q ∈ pairs, q.1 < n) →
      (hmKeys (pairs.foldl (fun m q => addHash m q.2 q.1) m)).Nodup ∧
        ValueBound n (pairs.foldl (fun m q => addHash m q.2 q.1) m) ∧
        (∀ h, h ∈ hmKeys (pairs.foldl (fun m q => addHash m q.2 q.1) m) ↔
          h ∈ hmKeys m ∨ ∃ q ∈ pairs, q.2 = h)
  | [], m, n, hnodup, hvb, _ => ⟨hnodup, hvb, fun h => by simp⟩
  | q :: rest, m, n, hnodup, hvb, hq => by
    rw [List.foldl_cons]
    have hnodup' : (hmKeys (addHash m q.2 q.1)).Nodup := by
      rw [addHash_keys]
      by_cases hmem : q.2 ∈ hmKeys m
      · simpa [hmem] using hnodup
      · simp only [if_neg hmem]
        simp [List.nodup_append, hnodup, hmem]
    have hvb' : ValueBound n (addHash m q.2 q.1) :=
      valueBound_addHash hvb (hq q (List.mem_cons_self _ _))
    have hq' : ∀ p ∈ rest, p.1 < n := fun p hp => hq p (List.mem_cons_of_mem _ hp)
    obtain ⟨ih1, ih2, ih3⟩ := foldPairs_invariants rest (addHash m q.2 q.1) n hnodup' hvb' hq'
    refine ⟨ih1, ih2, ?_⟩
    intro h
    rw [ih3 h]
    have hkeys : h ∈ hmKeys (addHash m q.2 q.1) ↔ h ∈ hmKeys m ∨ h = q.2 := by
      rw [addHash_keys]
      by_cases hmem : q.2 ∈ hmKeys m
      · rw [if_pos hmem]
        constructor
        · exact Or.inl
        · rintro (hh | rfl)
          · exact hh
          · exact hmem
      · rw [if_neg hmem]
        simp
    rw [hkeys]
    simp only [List.mem_cons]
    constructor
    · rintro ((hh | rfl) | ⟨p, hp, rfl⟩)
      · exact Or.inl hh
      · exact Or.inr ⟨q, Or.inl rfl, rfl⟩
      · exact Or.inr ⟨p, Or.inr hp, rfl⟩
    · rintro (hh | ⟨p, (rfl | hp), rfl⟩)
      · exact Or.inl (Or.inl hh)
      · exact Or.inl (Or.inr rfl)
      · exact Or.inr ⟨p, hp, rfl⟩

/-- Every flattened pair's node position is a valid snapshot index. -/
lemma snapshotPairs_fst_lt (snapshots : List SnapshotResult) :
    ∀ q ∈ snapshotPairs snapshots, q.1 < snapshots.length := by
  intro q hq
  unfold snapshotPairs at hq
  rcases List.mem_flatMap.mp hq with ⟨p, hp, hq2⟩
  rcases List.mem_map.mp hq2 with ⟨h, _, rfl⟩
  exact (List.mem_enum hp).1

/-- A hash occurs among the flattened pairs iff some snapshot lists it. -/
lemma snapshotPairs_snd_mem (snapshots : List SnapshotResult) (h : SnapshotHash) :
    (∃ q ∈ snapshotPairs snapshots, q.2 = h) ↔
      ∃ s ∈ snapshots, h ∈ s.hashes.getD [] := by
  constructor
  · rintro ⟨q, hq, rfl⟩
    unfold snapshotPairs at hq
    rcases List.mem_flatMap.mp hq with ⟨p, hp, hq2⟩
    rcases List.mem_map.mp hq2 with ⟨h', hh', heq⟩
    obtain ⟨hlt, hsnap⟩ := List.mem_enum hp
    refine ⟨p.2, hsnap ▸ List.getElem_mem hlt, ?_⟩
    have hh2 : h' = q.2 := congrArg Prod.snd heq
    exact hh2 ▸ hh'
  · rintro ⟨s, hs, hh⟩
    rcases List.mem_iff_getElem.mp hs with ⟨i, hi, rfl⟩
    refine ⟨(i, h), ?_, rfl⟩
    unfold snapshotPairs
    refine List.mem_flatMap.mpr ⟨(i, snapshots[i]), ?_, ?_⟩
    · rw [List.enum_eq_zip_range, List.mem_iff_getElem]
      refine ⟨i, by simp [hi], by simp [hi]⟩
    · exact List.mem_map.mpr ⟨h, hh, rfl⟩

/-- Stable insertion is a permutation. -/
lemma insertSortedBy_perm (le : α → α → Bool) (x : α) :
    ∀ l : List α, (insertSortedBy le x l).Perm (x :: l)
  | [] => List.Perm.refl _
  | y :: ys => by
    unfold insertSortedBy
    by_cases hle : le y x
    · rw [if_pos hle]
      exact ((insertSortedBy_perm le x ys).cons y).trans (List.Perm.swap x y ys)
    · rw [if_neg hle]

/-- The insertion-sort fold permutes its input onto the accumulator. -/
lemma sortBy_perm_aux (le : α → α → Bool) :
    ∀ (l acc : List α), (l.foldl (fun a x => insertSortedBy le x a) acc).Perm (l ++ acc)
  | [], acc => by simp
  | x :: rest, acc => by
    rw [List.foldl_cons]
    refine (sortBy_perm_aux le rest (insertSortedBy le x acc)).trans ?_
    refine (List.Perm.append_left rest (insertSortedBy_perm le x acc)).trans ?_
    exact List.perm_middle

/-- `sorted` returns a permutation of its input. -/
lemma sortBy_perm (le : α → α → Bool) (l : List α) : (sortBy le l).Perm l := by
  have h := sortBy_perm_aux le l []
  simpa using h

/-- Point updates preserve length. -/
lemma modifyNth_length (f : α → α) : ∀ (j : Nat) (l : List α), (modifyNth f j l).length = l.length
  | j, [] => by cases j <;> rfl
  | 0, _ :: _ => rfl
  | j + 1, _ :: xs => by
    simp [modifyNth, modifyNth_length f j xs]

/-- The running minimum of the `min` fold is one of the candidates. -/
lemma foldlMin_mem :
    ∀ (xs : List (Nat × Nat)) (x : Nat × Nat),
      xs.foldl (fun m p => if p.1 < m.1 ∨ (p.1 = m.1 ∧ p.2 < m.2) then p else m) x ∈ x :: xs
  | [], x => by simp
  | y :: ys, x => by
    rw [List.foldl_cons]
    by_cases hc : y.1 < x.1 ∨ (y.1 = x.1 ∧ y.2 < x.2)
    · rw [if_pos hc]
      exact List.mem_cons_of_mem x (foldlMin_mem ys y)
    · rw [if_neg hc]
      rcases List.mem_cons.mp (foldlMin_mem ys x) with h | h
      · exact List.mem_cons.mpr (Or.inl h)
      · exact List.mem_cons_of_mem x (List.mem_cons_of_mem y h)

/-- Python's `min` over a non-empty list returns an element of it. -/
lemma listMinPair_mem (x : Nat × Nat) (xs : List (Nat × Nat)) :
    listMinPair (x :: xs) ∈ x :: xs :=
  foldlMin_mem xs x

/-- The chosen node position for a hash is one of its holders. -/
lemma chooseNode_mem (datas : List NodeIndexData) (idxs : List Nat) (hne : idxs ≠ []) :
    chooseNode datas idxs ∈ idxs := by
  unfold chooseNode
  cases idxs with
  | nil => exact absurd rfl hne
  | cons i is =>
    rw [List.map_cons]
    have hmem := listMinPair_mem (totalAt datas i, i) (is.map fun j => (totalAt datas j, j))
    rcases List.mem_cons.mp hmem with h | h
    · rw [h]
      exact List.mem_cons_self _ _
    · rcases List.mem_map.mp h with ⟨j, hj, hj2⟩
      have h2 : (listMinPair ((totalAt datas i, i) :: is.map fun j => (totalAt datas j, j))).2 = j :=
        congrArg Prod.snd hj2.symm
      rw [h2]
      exact List.mem_cons_of_mem i hj

/-- Appending a hash to the `j`-th entry adds exactly that hash to the
assigned multiset. -/
lemma assignedHashes_modifyNth (h : SnapshotHash) :
    ∀ (j : Nat) (l : List NodeIndexData), j < l.length →
      (assignedHashes (modifyNth (·.append_sshash h) j l)).Perm (h :: assignedHashes l)
  | _, [], hj => by simp at hj
  | 0, d :: ds, _ => by
    show (assignedHashes (d.append_sshash h :: ds)).Perm _
    unfold assignedHashes NodeIndexData.append_sshash
    simp only [List.map_cons, List.flatten_cons]
    rw [List.append_assoc]
    exact List.perm_middle
  | j + 1, d :: ds, hj => by
    show (assignedHashes (d :: modifyNth (·.append_sshash h) j ds)).Perm _
    unfold assignedHashes
    simp only [List.map_cons, List.flatten_cons]
    have ih := assignedHashes_modifyNth h j ds (by simpa using hj)
    refine (List.Perm.append_left d.sshashes ih).trans ?_
    exact List.perm_middle

/-- One assignment step preserves the number of per-node entries. -/
lemma assignStep_length (hexdigests : List String) (datas : List NodeIndexData)
    (item : SnapshotHash × List Nat) :
    (assignStep hexdigests datas item).length = datas.length := by
  unfold assignStep
  by_cases hmem : item.1.hexdigest ∈ hexdigests
  · rw [if_pos hmem]
  · rw [if_neg hmem, modifyNth_length]

/-- One assignment step adds the item's hash to the assigned multiset unless
the digest is already stored. -/
lemma assignStep_perm (hexdigests : List String) (datas : List NodeIndexData)
    (item : SnapshotHash × List Nat) (hne : item.2 ≠ [])
    (hbound : ∀ i ∈ item.2, i < datas.length) :
    (assignedHashes (assignStep hexdigests datas item)).Perm
      (if item.1.hexdigest ∈ hexdigests then assignedHashes datas
       else item.1 :: assignedHashes datas) := by
  unfold assignStep
  by_cases hmem : item.1.hexdigest ∈ hexdigests
  · rw [if_pos hmem, if_pos hmem]
  · rw [if_neg hmem, if_neg hmem]
    exact assignedHashes_modifyNth item.1 (chooseNode datas item.2) datas
      (hbound _ (chooseNode_mem datas item.2 hne))

/-- The whole assignment loop: the assigned multiset is exactly the keys of
the todo items whose digest is not already stored, each once. -/
lemma foldAssign_perm (hexdigests : List String) :
    ∀ (todo : List (SnapshotHash × List Nat)) (datas : List NodeIndexData),
      (∀ item ∈ todo, item.2 ≠ [] ∧ ∀ i ∈ item.2, i < datas.length) →
      (assignedHashes (todo.foldl (assignStep hexdigests) datas)).Perm
        (((todo.filter fun it => !decide (it.1.hexdigest ∈ hexdigests)).map Prod.fst) ++
          assignedHashes datas)
  | [], datas, _ => by simp
  | item :: rest, datas, hcond => by
    rw [List.foldl_cons]
    have hitem := hcond item (List.mem_cons_self _ _)
    have hrest : ∀ it ∈ rest, it.2 ≠ [] ∧ ∀ i ∈ it.2, i < (assignStep hexdigests datas item).length := by
      intro it hit
      rw [assignStep_length]
      exact hcond it (List.mem_cons_of_mem _ hit)
    have ih := foldAssign_perm hexdigests rest (assignStep hexdigests datas item) hrest
    by_cases hmem : item.1.hexdigest ∈ hexdigests
    · have hstep := assignStep_perm hexdigests datas item hitem.1 hitem.2
      rw [if_pos hmem] at hstep
      rw [List.filter_cons_of_neg (by simp [hmem])]
      refine ih.trans ?_
      exact List.Perm.append_left _ hstep
    · have hstep := assignStep_perm hexdigests datas item hitem.1 hitem.2
      rw [if_neg hmem] at hstep
      rw [List.filter_cons_of_pos (by simp [hmem]), List.map_cons]
      refine ih.trans ?_
      refine (List.Perm.append_left _ hstep).trans ?_
      exact List.perm_middle

/-- Dropping entries with no assigned hashes does not change the assigned
hash list. -/
lemma assignedHashes_filter_nonempty :
    ∀ l : List NodeIndexData,
      assignedHashes (l.filter fun d => !d.sshashes.isEmpty) = assignedHashes l
  | [] => rfl
  | d :: ds => by
    by_cases hd : d.sshashes.isEmpty
    · rw [List.filter_cons_of_neg (by simp [hd])]
      unfold assignedHashes
      simp only [List.map_cons, List.flatten_cons]
      rw [List.isEmpty_iff.mp hd]
      rw [List.nil_append]
      exact assignedHashes_filter_nonempty ds
    · rw [List.filter_cons_of_pos (by simp [hd])]
      unfold assignedHashes
      simp only [List.map_cons, List.flatten_cons]
      rw [show ((List.filter (fun d => !d.sshashes.isEmpty) ds).map NodeIndexData.sshashes).flatten
            = assignedHashes (ds.filter fun d => !d.sshashes.isEmpty) from rfl]
      rw [assignedHashes_filter_nonempty ds]
      rfl

/-- The freshly initialised per-node entries carry no hashes. -/
lemma assignedHashes_init (node_indices : List Nat) :
    assignedHashes (node_indices.map fun node_index => { node_index := node_index }) = [] := by
  induction node_indices with
  | nil => rfl
  | cons i is ih =>
    unfold assignedHashes at *
    simp only [List.map_cons, List.flatten_cons]
    simp [ih]

/-- C2: for every work-distribution run whose inputs satisfy the function's
assert (`len(snapshots) == len(node_indices)`), the hashes assigned across the
output entries are duplicate-free (each hash is assigned to exactly one node,
once), a hash is assigned iff it occurs in some snapshot and its hexdigest is
not among the already-stored digests, and entries with no assigned hashes are
omitted from the output. -/
theorem build_node_index_datas_dedup (hexdigests : List String)
    (snapshots : List SnapshotResult) (node_indices : List Nat)
    (hlen : snapshots.length = node_indices.length) :
    (assignedHashes (build_node_index_datas hexdigests snapshots node_indices)).Nodup ∧
    (∀ h, h ∈ assignedHashes (build_node_index_datas hexdigests snapshots node_indices) ↔
      (∃ s ∈ snapshots, h ∈ s.hashes.getD []) ∧ h.hexdigest ∉ hexdigests) ∧
    (∀ d ∈ build_node_index_datas hexdigests snapshots node_indices, d.sshashes ≠ []) := by
  -- abbreviations matching the function body
  set m := sshashToNodeIndexes snapshots with hm
  set todo := sortBy (fun a b => sshashKeyLe (sshashSortKey a) (sshashSortKey b)) m with htodo
  set datas0 := node_indices.map (fun node_index => ({ node_index := node_index } : NodeIndexData)) with hdatas0
  have hout : build_node_index_datas hexdigests snapshots node_indices =
      (todo.foldl (assignStep hexdigests) datas0).filter fun d => !d.sshashes.isEmpty := rfl
  -- invariants of the hash map
  have hinv := foldPairs_invariants (snapshotPairs snapshots) [] snapshots.length
    (by simp [hmKeys]) (by intro kv hkv; cases hkv) (snapshotPairs_fst_lt snapshots)
  rw [← sshashToNodeIndexes_eq_foldPairs] at hinv
  obtain ⟨hkeys_nodup, hvb, hkeys_mem⟩ := hinv
  -- the sorted todo list is a permutation of the map
  have hperm : todo.Perm m := sortBy_perm _ m
  have htodo_cond : ∀ item ∈ todo, item.2 ≠ [] ∧ ∀ i ∈ item.2, i < datas0.length := by
    intro item hitem
    have hmem : item ∈ m := hperm.mem_iff.mp hitem
    have := hvb item hmem
    refine ⟨this.1, ?_⟩
    intro i hi
    have hd : datas0.length = node_indices.length := by
      rw [hdatas0, List.length_map]
    rw [hd, ← hlen]
    exact this.2 i hi
  -- the assigned multiset is the filtered key list
  have hfold := foldAssign_perm hexdigests todo datas0 htodo_cond
  rw [assignedHashes_init] at hfold
  rw [List.append_nil] at hfold
  have hassigned : assignedHashes (build_node_index_datas hexdigests snapshots node_indices) =
      assignedHashes (todo.foldl (assignStep hexdigests) datas0) := by
    rw [hout, assignedHashes_filter_nonempty]
  have hperm_assigned :
      (assignedHashes (build_node_index_datas hexdigests snapshots node_indices)).Perm
        ((todo.filter fun it => !decide (it.1.hexdigest ∈ hexdigests)).map Prod.fst) := by
    rw [hassigned]
    exact hfold
  -- nodup of the filtered key list
  have htodo_keys_nodup : (todo.map Prod.fst).Nodup :=
    ((hperm.map Prod.fst).nodup_iff).mpr hkeys_nodup
  have hfiltered_nodup :
      ((todo.filter fun it => !decide (it.1.hexdigest ∈ hexdigests)).map Prod.fst).Nodup :=
    ((List.filter_sublist todo).map Prod.fst).nodup htodo_keys_nodup
  refine ⟨hperm_assigned.symm.nodup hfiltered_nodup, ?_, ?_⟩
  · intro h
    rw [hperm_assigned.mem_iff]
    constructor
    · intro hmem
      rcases List.mem_map.mp hmem with ⟨it, hit, rfl⟩
      rcases List.mem_filter.mp hit with ⟨hit_todo, hp⟩
      have hkey : it.1 ∈ hmKeys m := List.mem_map.mpr ⟨it, hperm.mem_iff.mp hit_todo, rfl⟩
      have hsnap := (hkeys_mem it.1).mp hkey
      rcases hsnap with hfalse | hpair
      · simp [hmKeys] at hfalse
      · refine ⟨(snapshotPairs_snd_mem snapshots it.1).mp hpair, ?_⟩
        simpa using hp
    · rintro ⟨hsnap, hnotin⟩
      have hpair := (snapshotPairs_snd_mem snapshots h).mpr hsnap
      have hkey : h ∈ hmKeys m := (hkeys_mem h).mpr (Or.inr hpair)
      rcases List.mem_map.mp hkey with ⟨it, hit_m, rfl⟩
      exact List.mem_map.mpr
        ⟨it, List.mem_filter.mpr ⟨hperm.mem_iff.mpr hit_m, by simpa using hnotin⟩, rfl⟩
  · intro d hd
    rw [hout] at hd
    have hne := (List.mem_filter.mp hd).2
    intro hnil
    rw [hnil] at hne
    simp at hne

/-- Witness for C2 on the dedup scenario `H = {h1}`. -/
theorem build_node_index_datas_dedup_witness :
    ([scenarioSnap0, scenarioSnap1] : List SnapshotResult).length = ([0, 1] : List Nat).length ∧
    ((assignedHashes (build_node_index_datas ["h1"] [scenarioSnap0, scenarioSnap1] [0, 1])).Nodup ∧
      (∀ h, h ∈ assignedHashes (build_node_index_datas ["h1"] [scenarioSnap0, scenarioSnap1] [0, 1]) ↔
        (∃ s ∈ [scenarioSnap0, scenarioSnap1], h ∈ s.hashes.getD []) ∧ h.hexdigest ∉ ["h1"]) ∧
      (∀ d ∈ build_node_index_datas ["h1"] [scenarioSnap0, scenarioSnap1] [0, 1], d.sshashes ≠ [])) :=
  ⟨rfl, build_node_index_datas_dedup ["h1"] [scenarioSnap0, scenarioSnap1] [0, 1] rfl⟩

/-! ## C9: backup naming and its lexicographic ordering -/

/-- Lexicographic comparison of non-empty strings: first differing head
decides, equal heads recurse. -/
lemma strLt_cons_iff {a b : Char} {l1 l2 : List Char} :
    strLt (a :: l1) (b :: l2) ↔ a < b ∨ (a = b ∧ strLt l1 l2) := by
  constructor
  · intro h
    cases h with
    | cons h => exact Or.inr ⟨rfl, h⟩
    | rel h => exact Or.inl h
  · rintro (h | ⟨rfl, h⟩)
    · exact List.Lex.rel h
    · exact List.Lex.cons h

/-- Nothing is lexicographically below the empty string. -/
lemma strLt_nil_right (l : List Char) : ¬ strLt l [] := by
  intro h
  cases h

/-- Lexicographic comparison of equal-length prefixed strings decomposes into
prefix comparison and, at equal prefixes, suffix comparison. -/
lemma strLt_append_iff :
    ∀ (xs ys as bs : List Char), xs.length = ys.length →
      (strLt (xs ++ as) (ys ++ bs) ↔ strLt xs ys ∨ (xs = ys ∧ strLt as bs))
  | [], [], as, bs, _ => by
    simp only [List.nil_append]
    constructor
    · intro h
      exact Or.inr ⟨by trivial, h⟩
    · rintro (h | ⟨_, h⟩)
      · exact absurd h (strLt_nil_right [])
      · exact h
  | [], y :: ys, _, _, hlen => by simp at hlen
  | x :: xs, [], _, _, hlen => by simp at hlen
  | x :: xs, y :: ys, as, bs, hlen => by
    simp only [List.cons_append]
    rw [strLt_cons_iff, strLt_cons_iff,
      strLt_append_iff xs ys as bs (by simpa using hlen)]
    constructor
    · rintro (h | ⟨rfl, h | ⟨rfl, h⟩⟩)
      · exact Or.inl (Or.inl h)
      · exact Or.inl (Or.inr ⟨rfl, h⟩)
      · exact Or.inr ⟨rfl, h⟩
    · rintro ((h | ⟨rfl, h⟩) | ⟨heq, h⟩)
      · exact Or.inl h
      · exact Or.inr ⟨rfl, Or.inl h⟩
      · rw [List.cons.injEq] at heq
        exact Or.inr ⟨heq.1, Or.inr ⟨heq.2, h⟩⟩

/-- Comparison across one fixed-width field plus a shared separator. -/
lemma strLt_block_cons (c : Char) {x1 x2 y1 y2 : List Char} (hlen : x1.length = x2.length) :
    strLt (x1 ++ c :: y1) (x2 ++ c :: y2) ↔ strLt x1 x2 ∨ (x1 = x2 ∧ strLt y1 y2) := by
  rw [strLt_append_iff x1 x2 (c :: y1) (c :: y2) hlen, strLt_cons_iff]
  have : ¬ c < c := lt_irrefl c
  tauto

/-- Equality across one fixed-width field plus a shared separator. -/
lemma eq_block_cons (c : Char) {x1 x2 y1 y2 : List Char} (hlen : x1.length = x2.length) :
    x1 ++ c :: y1 = x2 ++ c :: y2 ↔ x1 = x2 ∧ y1 = y2 := by
  constructor
  · intro h
    obtain ⟨h1, h2⟩ := List.append_inj h hlen
    rw [List.cons.injEq] at h2
    exact ⟨h1, h2.2⟩
  · rintro ⟨rfl, rfl⟩
    rfl

/-- The decimal digit characters are ordered like their values. -/
lemma digitChar_lt_iff {a b : Nat} (ha : a < 10) (hb : b < 10) :
    (Nat.digitChar a < Nat.digitChar b ↔ a < b) := by
  interval_cases a <;> interval_cases b <;> decide

/-- Decimal digit characters are injective on digits. -/
lemma digitChar_eq_iff {a b : Nat} (ha : a < 10) (hb : b < 10) :
    (Nat.digitChar a = Nat.digitChar b ↔ a = b) := by
  interval_cases a <;> interval_cases b <;> decide

/-- Zero-padded two-digit strings compare like their values. -/
lemma pad2_lt_iff {a b : Nat} (ha : a ≤ 99) (hb : b ≤ 99) :
    strLt (pad2 a) (pad2 b) ↔ a < b := by
  unfold pad2
  rw [strLt_cons_iff, strLt_cons_iff]
  rw [digitChar_lt_iff (by omega) (by omega), digitChar_eq_iff (by omega) (by omega),
    digitChar_lt_iff (by omega) (by omega), digitChar_eq_iff (by omega) (by omega)]
  have hnil : ¬ strLt [] [] := strLt_nil_right []
  constructor
  · rintro (h | ⟨h1, h | ⟨h2, h⟩⟩)
    · omega
    · omega
    · exact absurd h hnil
  · intro h
    omega

/-- Zero-padded two-digit strings are injective below 100. -/
lemma pad2_eq_iff {a b : Nat} (ha : a ≤ 99) (hb : b ≤ 99) :
    pad2 a = pad2 b ↔ a = b := by
  unfold pad2
  rw [List.cons.injEq, List.cons.injEq]
  rw [digitChar_eq_iff (by omega) (by omega), digitChar_eq_iff (by omega) (by omega)]
  constructor
  · rintro ⟨h1, h2, _⟩
    omega
  · intro h
    subst h
    exact ⟨rfl, rfl, rfl⟩

/-- `pad2` always has width 2. -/
lemma pad2_length (a : Nat) : (pad2 a).length = 2 := rfl

/-- Zero-padded four-digit strings compare like their values. -/
lemma pad4_lt_iff {a b : Nat} (ha : a ≤ 9999) (hb : b ≤ 9999) :
    strLt (pad4 a) (pad4 b) ↔ a < b := by
  unfold pad4
  rw [strLt_append_iff _ _ _ _ (by rw [pad2_length, pad2_length])]
  rw [pad2_lt_iff (by omega) (by omega), pad2_eq_iff (by omega) (by omega),
    pad2_lt_iff (by omega) (by omega)]
  omega

/-- Zero-padded four-digit strings are injective below 10000. -/
lemma pad4_eq_iff {a b : Nat} (ha : a ≤ 9999) (hb : b ≤ 9999) :
    pad4 a = pad4 b ↔ a = b := by
  unfold pad4
  constructor
  · intro h
    obtain ⟨h1, h2⟩ := List.append_inj h (by rw [pad2_length, pad2_length])
    rw [pad2_eq_iff (by omega) (by omega)] at h1
    rw [pad2_eq_iff (by omega) (by omega)] at h2
    omega
  · intro h
    rw [h]

/-- `pad4` always has width 4. -/
lemma pad4_length (a : Nat) : (pad4 a).length = 4 := rfl

/-- A shared prefix never influences a lexicographic comparison. -/
lemma strLt_append_left_iff : ∀ (p a b : List Char), strLt (p ++ a) (p ++ b) ↔ strLt a b
  | [], _, _ => Iff.rfl
  | c :: p, a, b => by
    simp only [List.cons_append]
    rw [strLt_cons_iff, strLt_append_left_iff p a b]
    have : ¬ c < c := lt_irrefl c
    tauto

/-- C9: `backup_name` is the constant `JSON_BACKUP_PREFIX` followed by the
attempt start formatted as ISO-8601 at second precision, and the naming is
order-preserving: for valid timestamps, `t1 ≤ t2` at second granularity holds
iff `backup_name t1` is lexicographically `≤ backup_name t2` — so sorting
backup names lexicographically sorts them by `attempt_start`. -/
theorem backup_name_ordering (t1 t2 : UtcDateTime) (hv1 : t1.Valid) (hv2 : t2.Valid) :
    backup_name t1 = JSON_BACKUP_PREFIX ++ isoformatSeconds t1 ∧
    (strLe (backup_name t1) (backup_name t2) ↔ UtcDateTime.le t1 t2) := by
  obtain ⟨y1, mo1, d1, dh1, mi1, s1⟩ := t1
  obtain ⟨y2, mo2, d2, dh2, mi2, s2⟩ := t2
  unfold UtcDateTime.Valid at hv1 hv2
  dsimp only at hv1 hv2
  obtain ⟨hy1, hmo1l, hmo1, hd1l, hd1, hh1, hmi1, hs1⟩ := hv1
  obtain ⟨hy2, hmo2l, hmo2, hd2l, hd2, hh2, hmi2, hs2⟩ := hv2
  refine ⟨rfl, ?_⟩
  unfold strLe backup_name UtcDateTime.le
  rw [strLt_append_left_iff, List.append_right_inj]
  unfold isoformatSeconds
  simp only
  rw [strLt_block_cons '-' (by rw [pad4_length, pad4_length]),
    strLt_block_cons '-' (by rw [pad2_length, pad2_length]),
    strLt_block_cons 'T' (by rw [pad2_length, pad2_length]),
    strLt_block_cons ':' (by rw [pad2_length, pad2_length]),
    strLt_block_cons ':' (by rw [pad2_length, pad2_length]),
    eq_block_cons '-' (by rw [pad4_length, pad4_length]),
    eq_block_cons '-' (by rw [pad2_length, pad2_length]),
    eq_block_cons 'T' (by rw [pad2_length, pad2_length]),
    eq_block_cons ':' (by rw [pad2_length, pad2_length]),
    eq_block_cons ':' (by rw [pad2_length, pad2_length])]
  rw [pad4_lt_iff hy1 hy2, pad4_eq_iff hy1 hy2,
    pad2_lt_iff (by omega) (by omega), pad2_eq_iff (by omega) (by omega),
    pad2_lt_iff (by omega) (by omega), pad2_eq_iff (by omega) (by omega),
    pad2_lt_iff (by omega) (by omega), pad2_eq_iff (by omega) (by omega),
    pad2_lt_iff (by omega) (by omega), pad2_eq_iff (by omega) (by omega),
    pad2_lt_iff (by omega) (by omega), pad2_eq_iff (by omega) (by omega)]
  omega

/-- Witness for C9 at two concrete timestamps of the year 2024. -/
theorem backup_name_ordering_witness :
    (UtcDateTime.Valid ⟨2024, 5, 17, 3, 4, 5⟩) ∧ (UtcDateTime.Valid ⟨2024, 11, 2, 23, 59, 59⟩) ∧
    (backup_name ⟨2024, 5, 17, 3, 4, 5⟩ =
        JSON_BACKUP_PREFIX ++ isoformatSeconds ⟨2024, 5, 17, 3, 4, 5⟩ ∧
      (strLe (backup_name ⟨2024, 5, 17, 3, 4, 5⟩) (backup_name ⟨2024, 11, 2, 23, 59, 59⟩) ↔
        UtcDateTime.le ⟨2024, 5, 17, 3, 4, 5⟩ ⟨2024, 11, 2, 23, 59, 59⟩)) :=
  ⟨by decide, by decide,
   backup_name_ordering ⟨2024, 5, 17, 3, 4, 5⟩ ⟨2024, 11, 2, 23, 59, 59⟩ (by decide) (by decide)⟩
